import Mathlib

/-!
Shallow embedding of the block-based rich-content editor of this repository
(`src/types.ts`, `src/components/BlockEditor.tsx`, and the read-only post
renderer `PostDetailView`).  The definitions below are translated directly
from the TypeScript source; the theorems at the end of the file settle the
specification claims against them.
-/

namespace BlockEditor

/-- `BlockType` from `src/types.ts` (lines 11-23): the closed set of block
variants. -/
inductive BlockType where
  | paragraph
  | heading1
  | heading2
  | heading3
  | image
  | video
  | quote
  | list
  | orderedList
  | code
  | divider
deriving DecidableEq, Repr

/-- `TextAlignment` from `src/types.ts` (line 25). -/
inductive TextAlignment where
  | left
  | center
  | right
deriving DecidableEq, Repr

/-- `ContentBlock` from `src/types.ts` (lines 27-37).  Optional TypeScript
fields become `Option`; the JavaScript `number` used for `width` is modelled
as `ℚ` (the resize computation divides pixel quantities). -/
structure ContentBlock where
  id : String
  type : BlockType
  content : String
  src : Option String := none
  width : Option ℚ := none
  caption : Option String := none
  align : Option TextAlignment := none
  language : Option String := none
deriving DecidableEq, Repr

/-- The `Partial<ContentBlock>` payloads that `updateBlock` receives.  Every
call site in `BlockEditor.tsx` passes some subset of
`type` / `content` / `src` / `width` / `align`; a `some` field is merged by
the object spread `{ ...b, ...updates }`, a `none` field is absent. -/
structure BlockUpdate where
  type : Option BlockType := none
  content : Option String := none
  src : Option String := none
  width : Option ℚ := none
  align : Option TextAlignment := none
deriving DecidableEq, Repr

/-- The object spread `{ ...b, ...updates }` in `updateBlock`
(`BlockEditor.tsx` line 393). -/
def applyUpdate (b : ContentBlock) (u : BlockUpdate) : ContentBlock :=
  { b with
      type := u.type.getD b.type
      content := u.content.getD b.content
      src := match u.src with | some s => some s | none => b.src
      width := match u.width with | some w => some w | none => b.width
      align := match u.align with | some a => some a | none => b.align }

/-- `updateBlock` (`BlockEditor.tsx` lines 391-396).  The result is the list
handed to the host's `onChange` callback; `none` means the function returned
without invoking `onChange` (the read-only guard). -/
def updateBlock (readOnly : Bool) (blocks : List ContentBlock) (id : String)
    (u : BlockUpdate) : Option (List ContentBlock) :=
  if readOnly then none
  else some (blocks.map fun b => if b.id = id then applyUpdate b u else b)

/-- The freshly created block of `addBlock` (`BlockEditor.tsx` lines 400-406);
`newId` stands for the string `Math.random().toString(36).substr(2, 9)`
returned by the random generator. -/
def mkNewBlock (ty : BlockType) (newId : String) : ContentBlock :=
  { id := newId, type := ty, content := "", width := some 100,
    align := some TextAlignment.left }

/-- `addBlock` (`BlockEditor.tsx` lines 398-413).  JavaScript `findIndex`
yields `-1` when `afterId` is absent, and `splice(index + 1, 0, newBlock)`
then inserts at position `0`.  `none` means `onChange` was not invoked; on
success the result also carries the id passed to `setActiveBlockId`. -/
def addBlock (readOnly : Bool) (blocks : List ContentBlock) (afterId : String)
    (ty : BlockType) (newId : String) : Option (List ContentBlock × String) :=
  if readOnly then none
  else
    let idx : Nat :=
      match blocks.findIdx? (fun b => b.id == afterId) with
      | some i => i + 1
      | none => 0
    some (blocks.insertIdx idx (mkNewBlock ty newId), newId)

/-- `removeBlock` (`BlockEditor.tsx` lines 415-423).  `none` means the guard
`readOnly || blocks.length <= 1` fired and `onChange` was not invoked; on
success the result carries the filtered list and the id handed to
`setActiveBlockId` (only when `index > 0`). -/
def removeBlock (readOnly : Bool) (blocks : List ContentBlock) (id : String) :
    Option (List ContentBlock × Option String) :=
  if readOnly ∨ blocks.length ≤ 1 then none
  else
    let newBlocks := blocks.filter fun b => b.id != id
    let focus : Option String :=
      match blocks.findIdx? (fun b => b.id == id) with
      | some i => if 0 < i then (newBlocks.get? (i - 1)).map (·.id) else none
      | none => none
    some (newBlocks, focus)

/-- `retype` of the spec, §4.3: `updateBlock` restricted to the `type` field,
as invoked from the type-switcher menu (`BlockEditor.tsx` lines 652-664). -/
def retypeBlocks (blocks : List ContentBlock) (id : String) (ty : BlockType) :
    Option (List ContentBlock) :=
  updateBlock false blocks id { type := some ty }

/-! ### Media resize (`MediaBlock.handleResize`, `BlockEditor.tsx` lines 751-771) -/

/-- The percentage computed inside `onMouseMove`:
`Math.min(100, Math.max(20, (newWidthPx / parentWidth) * 100))` where
`newWidthPx = startWidth + diff`. -/
def resizeWidthPercent (startWidth diff parentWidth : ℚ) : ℚ :=
  min 100 (max 20 ((startWidth + diff) / parentWidth * 100))

/-- One `onMouseMove` step of `handleResize`: the guard `if (readOnly) return`
followed by `updateBlock(block.id, { width: newWidthPercent })`. -/
def handleResize (readOnly : Bool) (blocks : List ContentBlock) (id : String)
    (startWidth diff parentWidth : ℚ) : Option (List ContentBlock) :=
  if readOnly then none
  else updateBlock readOnly blocks id
    { width := some (resizeWidthPercent startWidth diff parentWidth) }

/-! ### Clipboard paste (`handlePaste`, `BlockEditor.tsx` lines 467-483) -/

/-- One entry of `e.clipboardData.items`; `file` models the result of
`getAsFile()` followed by `FileReader.readAsDataURL` (the data URI handed to
`reader.onload`), `none` when `getAsFile()` returns `null`. -/
structure ClipboardItem where
  mime : String
  file : Option String
deriving DecidableEq, Repr

/-- JavaScript `s.indexOf(pat) !== -1`: substring containment. -/
def strContains (s pat : String) : Bool :=
  (List.range (s.length + 1)).any fun i => pat.data.isPrefixOf (s.data.drop i)

/-- The loop of `handlePaste`: the first clipboard item whose MIME type
contains the substring `"image"`. -/
def findImageItem (items : List ClipboardItem) : Option ClipboardItem :=
  items.find? fun it => strContains it.mime "image"

/-- `handlePaste` (`BlockEditor.tsx` lines 467-483).  The `Bool` records
whether `e.preventDefault()` ran (default text paste suppressed); the
`Option` is the `onChange` payload of the single `updateBlock` call
`updateBlock(id, { type: Image, src: dataURI, content: "" })`, `none` when
no update was issued. -/
def handlePaste (readOnly : Bool) (blocks : List ContentBlock) (id : String)
    (items : List ClipboardItem) : Bool × Option (List ContentBlock) :=
  match findImageItem items with
  | none => (false, none)
  | some it =>
    (true,
      match it.file with
      | some uri =>
          updateBlock readOnly blocks id
            { type := some BlockType.image, src := some uri, content := some "" }
      | none => none)

/-! ### Rich-text sync layer (`RichText`, `BlockEditor.tsx` lines 280-345)

The contenteditable surface is modelled by the pair of its live DOM markup
(`displayed`, the `innerHTML`) and its focus state, together with the block's
`content` field (`content`, the `html` prop fed back by the host through
`updateBlock`). -/

structure RichTextState where
  displayed : String
  focused : Bool
  content : String
deriving DecidableEq, Repr

/-- The events the `RichText` component reacts to. -/
inductive RTEvent where
  /-- The host writes `h` into the block's `content` field from outside
  (programmatic update, AI generation, …); the `useEffect` on `[html]`
  (lines 297-303) then runs: the DOM is overwritten only when the surface is
  not the active element. -/
  | extUpdate (h : String)
  /-- The surface gains input focus. -/
  | focusGain
  /-- The surface loses focus: `onBlur` is wired to `handleInput`
  (line 339), which calls `onChange(innerHTML)`, i.e. writes the displayed
  markup into the block's `content`; the subsequent `[html]` effect compares
  equal markup and changes nothing. -/
  | blurEv
  /-- A local edit sets the DOM markup to `d`; `onInput` (line 338) calls
  `onChange(d)` immediately. -/
  | localInput (d : String)
deriving DecidableEq, Repr

/-- One transition of the sync layer. -/
def rtStep (s : RichTextState) : RTEvent → RichTextState
  | RTEvent.extUpdate h =>
      if h ≠ s.displayed ∧ s.focused = false then
        { displayed := h, focused := s.focused, content := h }
      else
        { s with content := h }
  | RTEvent.focusGain => { s with focused := true }
  | RTEvent.blurEv => { displayed := s.displayed, focused := false, content := s.displayed }
  | RTEvent.localInput d => { displayed := d, focused := s.focused, content := d }

/-! ### Read-only renderer (`PostDetailView`, `src/unnamed/part_000`
lines 822-850) -/

/-- The display output the public post page produces for one block. -/
inductive RenderedBlock where
  | heading1 (content : String)
  | heading2 (content : String)
  | para (content : String)
  | quote (content : String)
  | image (src : String) (width : ℚ) (caption : Option String)
deriving DecidableEq, Repr

/-- `block.src || 'https://picsum.photos/800/400'`: JavaScript `||` treats
the empty string as falsy. -/
def srcOrDefault (src : Option String) : String :=
  match src with
  | some s => if s = "" then "https://picsum.photos/800/400" else s
  | none => "https://picsum.photos/800/400"

/-- `block.width || 100`: JavaScript `||` treats `0` as falsy. -/
def widthOrDefault (w : Option ℚ) : ℚ :=
  match w with
  | some x => if x = 0 then 100 else x
  | none => 100

/-- The `switch (block.type)` of `PostDetailView`: the five handled variants
produce output, `default` returns `null` (renders nothing). -/
def renderBlock (b : ContentBlock) : Option RenderedBlock :=
  match b.type with
  | BlockType.heading1 => some (RenderedBlock.heading1 b.content)
  | BlockType.heading2 => some (RenderedBlock.heading2 b.content)
  | BlockType.paragraph => some (RenderedBlock.para b.content)
  | BlockType.quote => some (RenderedBlock.quote b.content)
  | BlockType.image =>
      some (RenderedBlock.image (srcOrDefault b.src) (widthOrDefault b.width) b.caption)
  | _ => none

/-- `post.blocks.map (block => switch … default: return null)`: the page's
body is the concatenation of the non-`null` renderings. -/
def renderPost (blocks : List ContentBlock) : List RenderedBlock :=
  blocks.filterMap renderBlock

/-! ### Reachability by structural edits -/

/-- Sequences reachable from `s` by the editor's `addBlock` / `removeBlock`
entry points, with the randomly generated id of each insertion chosen
arbitrarily (`Math.random` gives no freshness guarantee). -/
inductive Reachable : List ContentBlock → List ContentBlock → Prop where
  | refl (s : List ContentBlock) : Reachable s s
  | add {s t t' : List ContentBlock} {afterId : String} {ty : BlockType}
      {newId : String} {f : String} :
      Reachable s t → addBlock false t afterId ty newId = some (t', f) →
      Reachable s t'
  | rem {s t t' : List ContentBlock} {id : String} {f : Option String} :
      Reachable s t → removeBlock false t id = some (t', f) →
      Reachable s t'

/-- Reachability under the additional assumption that every generated id is
fresh: the inserted id never already occurs in the sequence. -/
inductive ReachableFresh : List ContentBlock → List ContentBlock → Prop where
  | refl (s : List ContentBlock) : ReachableFresh s s
  | add {s t t' : List ContentBlock} {afterId : String} {ty : BlockType}
      {newId : String} {f : String} :
      ReachableFresh s t → (∀ b ∈ t, b.id ≠ newId) →
      addBlock false t afterId ty newId = some (t', f) →
      ReachableFresh s t'
  | rem {s t t' : List ContentBlock} {id : String} {f : Option String} :
      ReachableFresh s t → removeBlock false t id = some (t', f) →
      ReachableFresh s t'

/-! ### Concrete sample data used by witnesses and counterexamples -/

def c1Block : ContentBlock := { id := "i", type := BlockType.paragraph, content := "x" }

def c1WitBlock : ContentBlock := { id := "w", type := BlockType.paragraph, content := "" }

def c2First : ContentBlock := { id := "b1", type := BlockType.paragraph, content := "one" }

def c2Second : ContentBlock := { id := "b2", type := BlockType.quote, content := "two" }

def c6A : ContentBlock := { id := "w1", type := BlockType.paragraph, content := "p" }

def c6B : ContentBlock := { id := "w2", type := BlockType.quote, content := "q" }

def c6C : ContentBlock := { id := "w3", type := BlockType.heading1, content := "h" }

def c7Block : ContentBlock := { id := "p1", type := BlockType.paragraph, content := "draft" }

def c7TextItem : ClipboardItem := { mime := "text/plain", file := some "t" }

def c7ImageItem : ClipboardItem := { mime := "image/png", file := some "data:image/png;base64,AA" }

def c8Para : ContentBlock := { id := "r1", type := BlockType.paragraph, content := "body" }

def c8Divider : ContentBlock := { id := "r2", type := BlockType.divider, content := "" }

def c9Block : ContentBlock := { id := "i", type := BlockType.quote, content := "q" }

def c9WitA : ContentBlock := { id := "a1", type := BlockType.paragraph, content := "p" }

def c9WitB : ContentBlock := { id := "a2", type := BlockType.quote, content := "q" }

end BlockEditor

namespace BlockEditor

/-! ### Helper lemmas -/

/-- `updateBlock` without the read-only guard always invokes `onChange` with
the mapped list. -/
theorem updateBlock_false_eq (blocks : List ContentBlock) (id : String)
    (u : BlockUpdate) :
    updateBlock false blocks id u =
      some (blocks.map fun b => if b.id = id then applyUpdate b u else b) := rfl

/-- `applyUpdate` never touches the `id` field: `BlockUpdate` carries no `id`
(no call site of `updateBlock` passes one). -/
theorem applyUpdate_id (b : ContentBlock) (u : BlockUpdate) :
    (applyUpdate b u).id = b.id := rfl

/-- A successful `updateBlock` leaves the list of ids untouched. -/
theorem updateBlock_map_id (blocks : List ContentBlock) (id : String)
    (u : BlockUpdate) (l : List ContentBlock)
    (h : updateBlock false blocks id u = some l) :
    l.map (·.id) = blocks.map (·.id) := by
  rw [updateBlock_false_eq] at h
  cases h
  rw [List.map_map]
  refine List.map_congr_left fun b _ => ?_
  by_cases hb : b.id = id <;> simp [hb, applyUpdate_id]

/-- `findIdx?` (with start index `j`) returning `some i` locates a matching
element `k = i - j` positions in; everything strictly before position `k`
survives the complementary `filter` as a plain list prefix. -/
theorem findIdx?_go_split (p : ContentBlock → Bool) :
    ∀ (l : List ContentBlock) (j i : Nat), List.findIdx? p l j = some i →
      ∃ k, i = j + k ∧ k < l.length ∧
        ∃ rest, l.filter (fun b => !(p b)) = l.take k ++ rest := by
  intro l
  induction l with
  | nil => intro j i h; rw [List.findIdx?_nil] at h; cases h
  | cons a l ih =>
    intro j i h
    rw [List.findIdx?_cons] at h
    by_cases hpa : p a = true
    · rw [if_pos hpa] at h
      cases h
      exact ⟨0, by omega, by simp, l.filter (fun b => !(p b)),
        by simp [List.filter_cons, hpa]⟩
    · rw [if_neg hpa] at h
      obtain ⟨k, hk, hkl, rest, hrest⟩ := ih (j + 1) i h
      refine ⟨k + 1, by omega, by simp only [List.length_cons]; omega, rest, ?_⟩
      have hpa' : p a = false := by simpa using hpa
      simp [List.filter_cons, List.take_succ_cons, hpa', hrest]

/-- When the ids in `l` are pairwise distinct, filtering one id away removes
at most one element. -/
theorem length_filter_ge_of_nodup (l : List ContentBlock) (id : String)
    (h : (l.map (·.id)).Nodup) :
    l.length ≤ (l.filter fun b => b.id != id).length + 1 := by
  induction l with
  | nil => simp
  | cons a l ih =>
    rw [List.map_cons, List.nodup_cons] at h
    by_cases ha : a.id = id
    · have hall : ∀ b ∈ l, (b.id != id) = true := by
        intro b hb
        have hne : b.id ≠ id := by
          intro he
          exact h.1 (List.mem_map.mpr ⟨b, hb, by rw [he, ha]⟩)
        simp [hne]
      rw [List.filter_cons_of_neg (by simp [ha]), List.filter_eq_self.mpr hall]
      simp
    · rw [List.filter_cons_of_pos (by simp [ha])]
      have := ih h.2
      simp only [List.length_cons]
      omega

/-- A successful `removeBlock` run: the guard passed and the output list is
the filtered input. -/
theorem removeBlock_some_parts (t t' : List ContentBlock) (id : String)
    (f : Option String)
    (h : removeBlock false t id = some (t', f)) :
    1 < t.length ∧ t' = t.filter fun b => b.id != id := by
  by_cases hc : t.length ≤ 1
  · simp [removeBlock, hc] at h
  · refine ⟨by omega, ?_⟩
    simp only [removeBlock,
      if_neg (show ¬((false : Bool) = true ∨ t.length ≤ 1) by simp [hc]),
      Option.some.injEq, Prod.mk.injEq] at h
    exact h.1.symm

/-- A sequence holding at most one block makes `removeBlock` refuse
(the `blocks.length <= 1` guard): `onChange` is not invoked. -/
theorem removeBlock_guard (l : List ContentBlock) (id : String)
    (h : l.length ≤ 1) : removeBlock false l id = none := by
  simp [removeBlock, h]

/-- A successful `addBlock` run: the output is the insertion of the fresh
block at the successor of the found index (or at the head). -/
theorem addBlock_some_parts (t t' : List ContentBlock) (afterId : String)
    (ty : BlockType) (newId f : String)
    (h : addBlock false t afterId ty newId = some (t', f)) :
    ∃ idx ≤ t.length, t' = t.insertIdx idx (mkNewBlock ty newId) := by
  simp only [addBlock, Bool.false_eq_true, if_neg, if_false, Option.some.injEq,
    Prod.mk.injEq, reduceCtorEq, not_false_iff] at h
  rcases hfi : List.findIdx? (fun b => b.id == afterId) t 0 with _ | i
  · refine ⟨0, by omega, ?_⟩
    rw [hfi] at h
    exact h.1.symm
  · obtain ⟨k, hk, hkl, -⟩ := findIdx?_go_split _ t 0 i hfi
    refine ⟨i + 1, by omega, ?_⟩
    rw [hfi] at h
    exact h.1.symm

/-- Inserting a block whose id is absent from the sequence keeps the id list
pairwise distinct and grows the length by one. -/
theorem addBlock_fresh_nodup (t t' : List ContentBlock) (afterId : String)
    (ty : BlockType) (newId f : String)
    (hfresh : ∀ b ∈ t, b.id ≠ newId)
    (hnd : (t.map (·.id)).Nodup)
    (h : addBlock false t afterId ty newId = some (t', f)) :
    (t'.map (·.id)).Nodup ∧ t'.length = t.length + 1 := by
  obtain ⟨idx, hle, ht'⟩ := addBlock_some_parts t t' afterId ty newId f h
  have hperm : t'.Perm (mkNewBlock ty newId :: t) := ht' ▸ List.perm_insertIdx _ _ hle
  constructor
  · rw [(hperm.map (·.id)).nodup_iff]
    rw [List.map_cons, List.nodup_cons]
    refine ⟨?_, hnd⟩
    intro hmem
    obtain ⟨b, hb, hbid⟩ := List.mem_map.mp hmem
    exact hfresh b hb hbid
  · rw [ht', List.length_insertIdx _ _ hle]

/-! ### Claim C2 -/

/-- C2, counterexample: with blocks `b1, b2` and an `afterId` (`"zz"`) that
matches no block, `addBlock` places the fresh block `n1` at the FRONT of the
sequence (`findIndex` yields `-1`, so `splice(0, 0, newBlock)` prepends); the
claimed appended order `b1, b2, n1` is a different list. -/
theorem addBlock_notFound_prepends_cex :
    (addBlock false [c2First, c2Second] "zz" BlockType.paragraph "n1").map
        (fun r => r.1.map (·.id)) = some ["n1", "b1", "b2"] ∧
    (["n1", "b1", "b2"] : List String) ≠ ["b1", "b2", "n1"] := by
  constructor
  · rfl
  · decide

/-- C2, amended: if `afterId` matches no block id, `addBlock` PREPENDS the
freshly created block at the start of the sequence, leaving all existing
blocks in place and in order (the source computes `findIndex = -1` and
`splice(-1 + 1, 0, newBlock)` inserts at position `0`). -/
theorem addBlock_notFound_prepends (blocks : List ContentBlock)
    (afterId : String) (ty : BlockType) (newId : String)
    (h : ∀ b ∈ blocks, b.id ≠ afterId) :
    addBlock false blocks afterId ty newId =
      some (mkNewBlock ty newId :: blocks, newId) := by
  have hfind : List.findIdx? (fun b => b.id == afterId) blocks = none := by
    rw [List.findIdx?_eq_none_iff]
    intro b hb
    simp [h b hb]
  simp [addBlock, hfind]

/-- C2, witness for the amended theorem at a concrete input. -/
theorem addBlock_notFound_prepends_witness :
    addBlock false [c2First, c2Second] "zz" BlockType.paragraph "n1" =
      some (mkNewBlock BlockType.paragraph "n1" :: [c2First, c2Second], "n1") :=
  addBlock_notFound_prepends [c2First, c2Second] "zz" BlockType.paragraph "n1"
    (by decide)

/-! ### Claim C3 -/

/-- C3, counterexample: the surface shows `"draft"` and holds focus; the
block's `content` is externally updated to `"ext"`; the surface then loses
focus.  After the blur the surface still displays `"draft"` — it never comes
to reflect the external value, because `onBlur` is wired to `handleInput`,
which writes the displayed markup back over the external update. -/
theorem richText_blur_keeps_local_cex :
    (rtStep (rtStep ⟨"draft", true, "draft"⟩ (RTEvent.extUpdate "ext"))
        RTEvent.blurEv).displayed = "draft" ∧
    (rtStep (rtStep ⟨"draft", true, "draft"⟩ (RTEvent.extUpdate "ext"))
        RTEvent.blurEv).content = "draft" ∧
    ("draft" : String) ≠ "ext" := by
  refine ⟨rfl, rfl, by decide⟩

/-- C3, amended: while the surface holds focus, an external change to the
block's `content` does not overwrite the displayed markup (it is deferred).
However, on losing focus the surface does NOT come to reflect the external
value: the `onBlur` handler reads the displayed markup back and writes it to
the block's `content`, overwriting (and losing) the external value, so the
surface keeps showing its pre-update markup. -/
theorem richText_focused_defers (s : RichTextState) (h : String)
    (hf : s.focused = true) :
    (rtStep s (RTEvent.extUpdate h)).displayed = s.displayed ∧
    (rtStep s (RTEvent.extUpdate h)).content = h ∧
    (rtStep (rtStep s (RTEvent.extUpdate h)) RTEvent.blurEv).displayed =
      s.displayed ∧
    (rtStep (rtStep s (RTEvent.extUpdate h)) RTEvent.blurEv).content =
      s.displayed := by
  simp [rtStep, hf]

/-- C3, witness for the amended theorem at a concrete input. -/
theorem richText_focused_defers_witness :
    (rtStep ⟨"body", true, "body"⟩ (RTEvent.extUpdate "new")).displayed =
      "body" ∧
    (rtStep ⟨"body", true, "body"⟩ (RTEvent.extUpdate "new")).content = "new" ∧
    (rtStep (rtStep ⟨"body", true, "body"⟩ (RTEvent.extUpdate "new"))
        RTEvent.blurEv).displayed = "body" ∧
    (rtStep (rtStep ⟨"body", true, "body"⟩ (RTEvent.extUpdate "new"))
        RTEvent.blurEv).content = "body" :=
  richText_focused_defers ⟨"body", true, "body"⟩ "new" rfl

/-! ### Claim C4 -/

/-- C4: `retype` (an `updateBlock` carrying only the `type` field) never
changes any block's `id`, and `content`, `src` and `width` survive the round
trip `retype(id, A)`, `retype(id, B)`, `retype(id, A)` unchanged; fields not
meaningful for the new type are not erased. -/
theorem retype_roundtrip_preserves (blocks : List ContentBlock) (id : String)
    (A B : BlockType) :
    ∃ l1 l2 l3,
      retypeBlocks blocks id A = some l1 ∧
      retypeBlocks l1 id B = some l2 ∧
      retypeBlocks l2 id A = some l3 ∧
      l1.map (·.id) = blocks.map (·.id) ∧
      l1.map (fun b => (b.content, b.src, b.width)) =
        (blocks.map fun b => (b.content, b.src, b.width)) ∧
      l3.map (fun b => (b.id, b.content, b.src, b.width)) =
        blocks.map fun b => (b.id, b.content, b.src, b.width) := by
  refine ⟨_, _, _, rfl, rfl, rfl, ?_, ?_, ?_⟩
  · exact updateBlock_map_id blocks id _ _ rfl
  · simp only [retypeBlocks, updateBlock_false_eq, List.map_map]
    refine List.map_congr_left fun b _ => ?_
    by_cases hb : b.id = id <;>
      simp [Function.comp, hb, applyUpdate]
  · simp only [retypeBlocks, updateBlock_false_eq, List.map_map]
    refine List.map_congr_left fun b _ => ?_
    by_cases hb : b.id = id <;>
      simp [Function.comp, hb, applyUpdate]

/-! ### Claim C5 -/

/-- Clamping from below at 20 then from above at 100 is the same as clamping
in the other order, because the two bounds are ordered. -/
theorem clamp_comm (w : ℚ) : min 100 (max 20 w) = max 20 (min 100 w) := by
  simp only [min_def, max_def]
  split_ifs <;> linarith

/-- C5: for every attempted width (the percentage
`(startWidth + diff) / parentWidth * 100` computed from the horizontal mouse
displacement), the value a resize stores on the block equals
`max(20, min(100, w))`; no stored value lies below 20 or above 100. -/
theorem resize_stores_clamped (blocks : List ContentBlock) (id : String)
    (startWidth diff parentWidth : ℚ) :
    resizeWidthPercent startWidth diff parentWidth =
      max 20 (min 100 ((startWidth + diff) / parentWidth * 100)) ∧
    20 ≤ resizeWidthPercent startWidth diff parentWidth ∧
    resizeWidthPercent startWidth diff parentWidth ≤ 100 ∧
    handleResize false blocks id startWidth diff parentWidth =
      some (blocks.map fun b =>
        if b.id = id then
          { b with
              width := some (max 20 (min 100 ((startWidth + diff) / parentWidth * 100))) }
        else b) := by
  refine ⟨clamp_comm _, le_min (by norm_num) (le_max_left _ _),
    min_le_left _ _, ?_⟩
  simp only [handleResize, Bool.false_eq_true, if_false, updateBlock_false_eq,
    Option.some.injEq]
  refine List.map_congr_left fun b _ => ?_
  by_cases hb : b.id = id <;>
    simp [hb, applyUpdate, resizeWidthPercent, clamp_comm]

/-! ### Claim C10 -/

/-- C10: in read-only mode every mutation entry point returns immediately
without invoking the host's `onChange` callback (modelled as the `none`
result), so the hosted sequence is never modified through a read-only
editor. -/
theorem readOnly_never_mutates (blocks : List ContentBlock)
    (id afterId newId : String) (u : BlockUpdate) (ty : BlockType) :
    updateBlock true blocks id u = none ∧
    addBlock true blocks afterId ty newId = none ∧
    removeBlock true blocks id = none := by
  refine ⟨rfl, rfl, ?_⟩
  simp [removeBlock]

/-! ### Claim C7 -/

/-- C7: when a paste event carries image MIME data (some clipboard item whose
type contains `"image"`, with a readable file), the default text-paste
behavior is suppressed (`preventDefault`, modelled by the `true` flag) and
the block is converted in place: its type becomes `Image`, its `src` is set
to the decoded data URI, its `content` becomes the empty string, and its `id`
is preserved (as are all other blocks). -/
theorem handlePaste_image_converts (blocks : List ContentBlock) (id : String)
    (items : List ClipboardItem) (it : ClipboardItem) (uri : String)
    (hfind : findImageItem items = some it)
    (hfile : it.file = some uri) :
    handlePaste false blocks id items =
      (true, some (blocks.map fun b =>
        if b.id = id then
          { b with type := BlockType.image, src := some uri, content := "" }
        else b)) := by
  unfold handlePaste
  rw [hfind]
  dsimp only
  rw [hfile]
  rfl

/-- C7, witness: pasting a clipboard holding a text item and a PNG item into
the paragraph block `p1` (content `"draft"`) suppresses the default paste
and rewrites `p1` in place to an image block with the decoded data URI and
empty content. -/
theorem handlePaste_image_converts_witness :
    handlePaste false [c7Block] "p1" [c7TextItem, c7ImageItem] =
      (true, some [{ c7Block with
        type := BlockType.image,
        src := some "data:image/png;base64,AA",
        content := "" }]) := by
  have h := handlePaste_image_converts [c7Block] "p1" [c7TextItem, c7ImageItem]
    c7ImageItem "data:image/png;base64,AA" (by decide) rfl
  rw [h]
  decide

/-! ### Claim C8 -/

/-- C8: a block whose type is not one of the public renderer's known variants
(`Heading1`, `Heading2`, `Paragraph`, `Quote`, `Image`) hits the `default`
arm of the `switch` and renders nothing (no output, no failure), and the rest
of the page renders exactly as it would without that block. -/
theorem renderBlock_unknown_renders_nothing (b : ContentBlock)
    (h1 : b.type ≠ BlockType.heading1) (h2 : b.type ≠ BlockType.heading2)
    (h3 : b.type ≠ BlockType.paragraph) (h4 : b.type ≠ BlockType.quote)
    (h5 : b.type ≠ BlockType.image) :
    renderBlock b = none ∧
    ∀ xs ys, renderPost (xs ++ b :: ys) = renderPost (xs ++ ys) := by
  have hnone : renderBlock b = none := by
    unfold renderBlock
    rcases b with ⟨bid, ty, c, s, w, cap, al, lang⟩
    cases ty <;> simp_all
  refine ⟨hnone, fun xs ys => ?_⟩
  unfold renderPost
  rw [List.filterMap_append, List.filterMap_append, List.filterMap_cons, hnone]

/-- C8, witness: a `Divider` block (a type added after the public renderer
was built) renders nothing, and a page holding a paragraph plus that divider
renders the same as the page holding just the paragraph. -/
theorem renderBlock_unknown_renders_nothing_witness :
    renderBlock c8Divider = none ∧
    renderPost [c8Para, c8Divider] = renderPost [c8Para] := by
  have h := renderBlock_unknown_renders_nothing c8Divider (by decide) (by decide)
    (by decide) (by decide) (by decide)
  exact ⟨h.1, h.2 [c8Para] []⟩

/-! ### Claim C6 -/

/-- C6: in a sequence of more than one block, removing the block first found
at index `i > 0` invokes `onChange` with the filtered sequence and designates
as new focus the id of the block previously at index `i - 1`; removing the
block at index `0` designates no focus id. -/
theorem removeBlock_focus_transfer (blocks : List ContentBlock) (id : String)
    (i : Nat)
    (hlen : 1 < blocks.length)
    (hfind : List.findIdx? (fun b => b.id == id) blocks = some i) :
    (0 < i → ∃ prev, blocks.get? (i - 1) = some prev ∧
        removeBlock false blocks id =
          some (blocks.filter (fun b => b.id != id), some prev.id)) ∧
    (i = 0 → removeBlock false blocks id =
        some (blocks.filter (fun b => b.id != id), none)) := by
  obtain ⟨k, hk, hklen, rest, hsplit⟩ :=
    findIdx?_go_split (fun b => b.id == id) blocks 0 i hfind
  obtain rfl : i = k := by omega
  have hremove : removeBlock false blocks id =
      some (blocks.filter (fun b => b.id != id),
        if 0 < i then
          ((blocks.filter (fun b => b.id != id)).get? (i - 1)).map (·.id)
        else none) := by
    simp only [removeBlock,
      if_neg (show ¬((false : Bool) = true ∨ blocks.length ≤ 1) by simp; omega),
      hfind]
  constructor
  · intro hi
    have hget : (blocks.filter (fun b => b.id != id)).get? (i - 1) =
        blocks.get? (i - 1) := by
      have hfeq : (blocks.filter fun b => b.id != id) =
          blocks.take i ++ rest := hsplit
      rw [hfeq, List.get?_eq_getElem?, List.getElem?_append_left
        (by rw [List.length_take]; omega), List.getElem?_take_of_lt (by omega),
        ← List.get?_eq_getElem?]
    have hprev : blocks.get? (i - 1) =
        some (blocks.get ⟨i - 1, by omega⟩) := List.get?_eq_get _
    refine ⟨blocks.get ⟨i - 1, by omega⟩, hprev, ?_⟩
    rw [hremove, if_pos hi, hget, hprev]
    rfl
  · intro hi
    rw [hremove, if_neg (by omega)]

/-- C6, witness: removing the middle block `w2` of the three-block sequence
`w1, w2, w3` (first found at index `1`) keeps the other two blocks and moves
focus to `w1`, the id previously at index `0`. -/
theorem removeBlock_focus_transfer_witness :
    removeBlock false [c6A, c6B, c6C] "w2" = some ([c6A, c6C], some "w1") := by
  obtain ⟨prev, hprev, hrm⟩ :=
    (removeBlock_focus_transfer [c6A, c6B, c6C] "w2" 1 (by decide)
      (by decide)).1 (by decide)
  have hp : prev = c6A := by
    have : some prev = some c6A := by rw [← hprev]; rfl
    exact (Option.some.inj this)
  rw [hrm, hp]
  decide

/-! ### Claim C1 -/

/-- C1, counterexample: from the singleton sequence holding block id `"i"`
(pairwise-distinct ids), one `addBlock` whose randomly generated id happens
to collide with `"i"` (the source performs no uniqueness check on
`Math.random().toString(36).substr(2, 9)`) followed by one `removeBlock "i"`
reaches the EMPTY sequence: the filter drops both blocks at once, so a
sequence of length 0 is reachable and the ≥ 1 invariant fails. -/
theorem reachable_empty_cex :
    (([c1Block] : List ContentBlock).map (·.id)).Nodup ∧
    Reachable [c1Block] [] ∧ ([] : List ContentBlock).length = 0 := by
  refine ⟨by decide, ?_, rfl⟩
  have h1 : addBlock false [c1Block] "i" BlockType.paragraph "i" =
      some ([c1Block, mkNewBlock BlockType.paragraph "i"], "i") := by decide
  have h2 : removeBlock false [c1Block, mkNewBlock BlockType.paragraph "i"]
      "i" = some ([], none) := by decide
  exact Reachable.rem (Reachable.add (Reachable.refl _) h1) h2

/-- C1, amended: provided every id the generator hands to `insertAfter` is
fresh (never already present — the property the code relies on but does not
itself check), every sequence reachable by `addBlock` / `removeBlock` from a
non-empty starting sequence with pairwise-distinct ids has length ≥ 1 and
keeps its ids pairwise distinct; moreover `removeBlock` on a sequence of one
remaining block refuses (no `onChange`), leaving the sequence unchanged. -/
theorem reachableFresh_never_empty (s t : List ContentBlock)
    (hlen : 1 ≤ s.length) (hnd : (s.map (·.id)).Nodup)
    (hr : ReachableFresh s t) :
    1 ≤ t.length ∧ (t.map (·.id)).Nodup ∧
    ∀ id, t.length = 1 → removeBlock false t id = none := by
  have main : 1 ≤ t.length ∧ (t.map (·.id)).Nodup := by
    induction hr with
    | refl => exact ⟨hlen, hnd⟩
    | add hr hfresh hadd ih =>
        obtain ⟨hnd', hlen'⟩ :=
          addBlock_fresh_nodup _ _ _ _ _ _ hfresh ih.2 hadd
        exact ⟨by omega, hnd'⟩
    | rem hr hrm ih =>
        rename_i tp tq rid rf
        obtain ⟨hlt, ht'⟩ := removeBlock_some_parts _ _ _ _ hrm
        have hge := length_filter_ge_of_nodup tp rid ih.2
        refine ⟨by rw [ht']; omega, ?_⟩
        rw [ht']
        exact List.Nodup.sublist ((List.filter_sublist _).map _) ih.2
  exact ⟨main.1, main.2, fun id h1 => removeBlock_guard t id (by omega)⟩

/-- C1, witness for the amended theorem: the singleton sequence `[w]` is
reachable from itself; it has length ≥ 1, distinct ids, and removing its
only block is a no-op. -/
theorem reachableFresh_never_empty_witness :
    removeBlock false [c1WitBlock] "w" = none ∧
    1 ≤ ([c1WitBlock] : List ContentBlock).length := by
  have h := reachableFresh_never_empty [c1WitBlock] [c1WitBlock] (by decide)
    (by decide) (ReachableFresh.refl _)
  exact ⟨h.2.2 "w" rfl, h.1⟩

/-! ### Claim C9 -/

/-- C9, counterexample: the id `addBlock` generates comes from
`Math.random().toString(36).substr(2, 9)` with no uniqueness check, so it can
collide with an id already in the sequence (e.g. `Math.random() = 0.5` yields
the id `"i"`): inserting into the distinct-id sequence `[block "i"]` with
generated id `"i"` produces a sequence whose ids are NOT pairwise
distinct. -/
theorem addBlock_collision_cex :
    (([c9Block] : List ContentBlock).map (·.id)).Nodup ∧
    addBlock false [c9Block] "i" BlockType.paragraph "i" =
      some ([c9Block, mkNewBlock BlockType.paragraph "i"], "i") ∧
    ¬ (([c9Block, mkNewBlock BlockType.paragraph "i"] :
        List ContentBlock).map (·.id)).Nodup := by
  refine ⟨by decide, by decide, by decide⟩

/-- C9, amended: starting from a sequence with pairwise-distinct ids,
`update` (hence also `retype`, its type-only instance) and `remove` preserve
pairwise distinctness unconditionally, and `insertAfter` preserves it
whenever the freshly generated id differs from every id already in the
sequence — a freshness property the code assumes of its random generator but
does not enforce. -/
theorem ops_preserve_distinct_ids (blocks l1 l2 l3 : List ContentBlock)
    (id rid afterId newId : String) (u : BlockUpdate) (ty : BlockType)
    (f2 : Option String) (f3 : String)
    (hnd : (blocks.map (·.id)).Nodup)
    (hfresh : ∀ b ∈ blocks, b.id ≠ newId)
    (h1 : updateBlock false blocks id u = some l1)
    (h2 : removeBlock false blocks rid = some (l2, f2))
    (h3 : addBlock false blocks afterId ty newId = some (l3, f3)) :
    (l1.map (·.id)).Nodup ∧ (l2.map (·.id)).Nodup ∧
    (l3.map (·.id)).Nodup := by
  refine ⟨?_, ?_, (addBlock_fresh_nodup _ _ _ _ _ _ hfresh hnd h3).1⟩
  · rw [updateBlock_map_id blocks id u l1 h1]
    exact hnd
  · obtain ⟨-, ht'⟩ := removeBlock_some_parts _ _ _ _ h2
    rw [ht']
    exact List.Nodup.sublist ((List.filter_sublist _).map _) hnd

/-- C9, witness: concrete runs of all three operations on the
distinct-id sequence `[a1, a2]` (update of `a1`, removal of `a2`, insertion
of fresh id `n9` after a missing id), each yielding distinct ids. -/
theorem ops_preserve_distinct_ids_witness :
    (([{ c9WitA with content := "z" }, c9WitB] :
        List ContentBlock).map (·.id)).Nodup ∧
    (([c9WitA] : List ContentBlock).map (·.id)).Nodup ∧
    (([mkNewBlock BlockType.paragraph "n9", c9WitA, c9WitB] :
        List ContentBlock).map (·.id)).Nodup :=
  ops_preserve_distinct_ids [c9WitA, c9WitB]
    [{ c9WitA with content := "z" }, c9WitB] [c9WitA]
    [mkNewBlock BlockType.paragraph "n9", c9WitA, c9WitB]
    "a1" "a2" "zz" "n9" { content := some "z" } BlockType.paragraph
    (some "a1") "n9" (by decide) (by decide) (by decide) (by decide)
    (by decide)

end BlockEditor
